import Mathlib

/-!
Verification of the progress-estimation pipeline of the construction
progress analyzer (src/agents.py, src/project_mamangement.py).

The embedding models narratives as `List Char`, percentages as exact
rationals `ℚ` (the Python floats in play carry at most one decimal
digit, so rationals are faithful), the external multimodal model call
as a function `List Char → Except (List Char) (List Char)` from an
image URI to either an error or a narrative, and the random draw
`random.uniform(50, 100)` rendered by `f"{x:.1f}"` as its rendered
value in tenths, a natural number `k` with `500 ≤ k ≤ 1000`.

The regex extraction `re.search(r"(\d+(\.\d+)?)\s*%?", text)` followed
by `float(match.group(1))` is split accordingly: `scanParts` finds the
leftmost match and returns group 1 as its integer digit run and its
(possibly empty) fractional digit run, and `ratOfParts` is the numeric
conversion performed by `float`.
-/

namespace ConstructionProgress

/-- Numeric value of a decimal digit character (`'0'` ↦ 0, …). -/
def charVal (c : Char) : ℕ := c.toNat - 48

/-- Value of a most-significant-digit-first run of digit characters. -/
def natVal (ds : List Char) : ℕ := ds.foldl (fun a c => 10 * a + charVal c) 0

/-- Value of a fractional digit run: `fracVal "25" = 25/100`. -/
def fracVal (fs : List Char) : ℚ := (natVal fs : ℚ) / (10 : ℚ) ^ fs.length

/-- Group 1 of the regex `(\d+(\.\d+)?)\s*%?` matched at the head of
`cs` (src/agents.py line 111), split at the decimal point: a maximal
digit run, and the fractional digit run when a decimal point followed
by at least one digit is present (otherwise `[]`); the trailing
`\s*%?` always succeeds and does not affect group 1.  Returns `none`
when `cs` does not start with a digit. -/
def matchPartsAt (cs : List Char) : Option (List Char × List Char) :=
  let ds := cs.takeWhile (fun c => c.isDigit)
  let rest := cs.dropWhile (fun c => c.isDigit)
  if ds = [] then none
  else if rest.head? = some '.' then
    let fs := rest.tail.takeWhile (fun c => c.isDigit)
    if fs = [] then some (ds, []) else some (ds, fs)
  else some (ds, [])

/-- `re.search(r"(\d+(\.\d+)?)\s*%?", text)`: leftmost match.  The
pattern starts with `\d+`, so the match begins at the first digit of
the text; the scan walks to that position and applies `matchPartsAt`. -/
def scanParts : List Char → Option (List Char × List Char)
  | [] => none
  | c :: cs => if c.isDigit then matchPartsAt (c :: cs) else scanParts cs

/-- `float(progress_match.group(1))`: numeric value of a matched
integer digit run and fractional digit run. -/
def ratOfParts (p : List Char × List Char) : ℚ := (natVal p.1 : ℚ) + fracVal p.2

/-- The extracted percentage, when the regex matches. -/
def reSearchNum (cs : List Char) : Option ℚ := (scanParts cs).map ratOfParts

/-- `float(progress_match.group(1)) if progress_match else 0.0`
(src/agents.py line 112, src/project_mamangement.py line 69). -/
def progressFrom (cs : List Char) : ℚ := (reSearchNum cs).getD 0

/-- Spec-side formulation (spec §4.1): "Extracts the first run of
digits optionally followed by a decimal fraction … using a single
leftmost-match scan; sets `progress_percent` to that number": drop
everything before the first digit, take the maximal digit run there,
then an optional `.`-separated fraction, and form the number. -/
def specExtract (cs : List Char) : Option ℚ :=
  let t := cs.dropWhile (fun c => !c.isDigit)
  let ds := t.takeWhile (fun c => c.isDigit)
  let rest := t.dropWhile (fun c => c.isDigit)
  if ds = [] then none
  else if rest.head? = some '.' then
    let fs := rest.tail.takeWhile (fun c => c.isDigit)
    if fs = [] then some ((natVal ds : ℚ))
    else some ((natVal ds : ℚ) + (natVal fs : ℚ) / (10 : ℚ) ^ fs.length)
  else some ((natVal ds : ℚ))

/-- Decimal digits of `n`, least significant first; the first argument
is structural fuel (`n` itself suffices since `n / 10 < n`). -/
def digitsRev : ℕ → ℕ → List ℕ
  | 0, _ => []
  | fuel + 1, n => if n = 0 then [] else n % 10 :: digitsRev fuel (n / 10)

/-- Decimal rendering of a natural number, most significant digit
first, as produced for the integer part of `f"{x:.1f}"`. -/
def natToChars (n : ℕ) : List Char :=
  if n = 0 then ['0'] else ((digitsRev n n).map Nat.digitChar).reverse

/-- Rendering of `f"{simulated_progress:.1f}"` where the rendered value
is `k` tenths: integer part `k / 10`, one fractional digit `k % 10`. -/
def fmtTenths (k : ℕ) : List Char :=
  natToChars (k / 10) ++ '.' :: [Nat.digitChar (k % 10)]

/-- The simulated fallback narrative of src/agents.py lines 105-108:
`f"Simulated analysis for image {image_uri}. The site appears to be at
approximately {simulated_progress:.1f}% progress with visible
structural developments."`. -/
def simulatedNarrative (image_uri : List Char) (k : ℕ) : List Char :=
  ("Simulated analysis for image ").data ++ image_uri ++
    (". The site appears to be at approximately ").data ++ fmtTenths k ++
    ("% progress with visible structural developments.").data

/-- One entry of the analysis results list:
`{"analysis": response_text, "progress": progress_estimate}`
(src/agents.py line 115). -/
structure AnalysisEntry where
  analysis : List Char
  progress : ℚ
  deriving DecidableEq

/-- src/agents.py `analyze_image` (lines 43-117): per image, try the
external model call; on any failure substitute the simulated
narrative built from the drawn percentage (`sim image_uri` tenths);
then extract the progress estimate from the narrative by regex and
append one entry per image. -/
def analyze_image (callModel : List Char → Except (List Char) (List Char))
    (sim : List Char → ℕ) (image_metadata_list : List (List Char)) : List AnalysisEntry :=
  image_metadata_list.map (fun image_uri =>
    let response_text :=
      match callModel image_uri with
      | Except.ok t => t
      | Except.error _ => simulatedNarrative image_uri (sim image_uri)
    { analysis := response_text, progress := progressFrom response_text })

/-- The dict returned by `consolidate_analysis` (src/agents.py
lines 136-140). -/
structure ConsolidatedReport where
  timeline : List AnalysisEntry
  overall_progress : ℚ
  estimated_completion : String
  deriving DecidableEq

/-- src/agents.py `consolidate_analysis` (lines 120-140): one loop
appends each entry to the timeline and accumulates `total_progress`;
`overall_progress = total_progress / num_analyses if num_analyses > 0
else 0.0`; `estimated_completion` is the hard-coded `"2024-06-01"`. -/
def consolidate_analysis (image_analyses : List AnalysisEntry) : ConsolidatedReport :=
  let timeline := image_analyses.map (fun a => { analysis := a.analysis, progress := a.progress })
  let total_progress := image_analyses.foldl (fun acc a => acc + a.progress) 0
  let num_analyses := image_analyses.length
  { timeline := timeline
    overall_progress := if num_analyses > 0 then total_progress / (num_analyses : ℚ) else 0
    estimated_completion := "2024-06-01" }

/-- The first character of `l`, if any, is not a digit. -/
def headNotDigit (l : List Char) : Prop := ∀ c ∈ l.take 1, c.isDigit = false

theorem scanParts_append_noDigit (pre cs : List Char)
    (h : ∀ c ∈ pre, c.isDigit = false) : scanParts (pre ++ cs) = scanParts cs := by
  induction pre with
  | nil => rfl
  | cons c t ih =>
    have hc : c.isDigit = false := h c (List.mem_cons_self c t)
    have ht : ∀ x ∈ t, x.isDigit = false := fun x hx => h x (List.mem_cons_of_mem c hx)
    simp [scanParts, hc, ih ht]

theorem scanParts_eq_none (cs : List Char) (h : ∀ c ∈ cs, c.isDigit = false) :
    scanParts cs = none := by
  have := scanParts_append_noDigit cs [] h
  simpa using this

theorem takeWhile_digits_append (ds rest : List Char)
    (hds : ∀ c ∈ ds, c.isDigit = true) (hr : headNotDigit rest) :
    (ds ++ rest).takeWhile (fun c => c.isDigit) = ds := by
  induction ds with
  | nil =>
    cases rest with
    | nil => rfl
    | cons c t =>
      have hc : c.isDigit = false := hr c (by simp)
      simp [List.takeWhile, hc]
  | cons c t ih =>
    have hc : c.isDigit = true := hds c (List.mem_cons_self c t)
    have ht : ∀ x ∈ t, x.isDigit = true := fun x hx => hds x (List.mem_cons_of_mem c hx)
    simp [List.takeWhile, hc, ih ht]

theorem dropWhile_digits_append (ds rest : List Char)
    (hds : ∀ c ∈ ds, c.isDigit = true) (hr : headNotDigit rest) :
    (ds ++ rest).dropWhile (fun c => c.isDigit) = rest := by
  induction ds with
  | nil =>
    cases rest with
    | nil => rfl
    | cons c t =>
      have hc : c.isDigit = false := hr c (by simp)
      simp [List.dropWhile, hc]
  | cons c t ih =>
    have hc : c.isDigit = true := hds c (List.mem_cons_self c t)
    have ht : ∀ x ∈ t, x.isDigit = true := fun x hx => hds x (List.mem_cons_of_mem c hx)
    simp [List.dropWhile, hc, ih ht]

theorem matchPartsAt_run_frac (ds fs suf : List Char) (hne : ds ≠ [])
    (hds : ∀ c ∈ ds, c.isDigit = true) (hfne : fs ≠ [])
    (hfs : ∀ c ∈ fs, c.isDigit = true) (hsuf : headNotDigit suf) :
    matchPartsAt (ds ++ '.' :: (fs ++ suf)) = some (ds, fs) := by
  have hdotRest : headNotDigit ('.' :: (fs ++ suf)) := by
    intro c hc
    simp at hc
    subst hc
    decide
  have htake : (ds ++ '.' :: (fs ++ suf)).takeWhile (fun c => c.isDigit) = ds :=
    takeWhile_digits_append ds _ hds hdotRest
  have hdrop : (ds ++ '.' :: (fs ++ suf)).dropWhile (fun c => c.isDigit) = '.' :: (fs ++ suf) :=
    dropWhile_digits_append ds _ hds hdotRest
  have htakef : (fs ++ suf).takeWhile (fun c => c.isDigit) = fs :=
    takeWhile_digits_append fs suf hfs hsuf
  simp only [matchPartsAt, htake, hdrop, List.head?_cons, List.tail_cons, htakef]
  simp [hne, hfne]

theorem scanParts_run_frac (ds fs suf : List Char) (hne : ds ≠ [])
    (hds : ∀ c ∈ ds, c.isDigit = true) (hfne : fs ≠ [])
    (hfs : ∀ c ∈ fs, c.isDigit = true) (hsuf : headNotDigit suf) :
    scanParts (ds ++ '.' :: (fs ++ suf)) = some (ds, fs) := by
  cases ds with
  | nil => exact absurd rfl hne
  | cons c t =>
    have hc : c.isDigit = true := hds c (List.mem_cons_self c t)
    have : scanParts ((c :: t) ++ '.' :: (fs ++ suf)) =
        matchPartsAt ((c :: t) ++ '.' :: (fs ++ suf)) := by
      simp [scanParts, hc]
    rw [this]
    exact matchPartsAt_run_frac (c :: t) fs suf hne hds hfne hfs hsuf

theorem digitsRev_foldr (fuel : ℕ) : ∀ n : ℕ, n ≤ fuel →
    (digitsRev fuel n).foldr (fun d a => 10 * a + d) 0 = n := by
  induction fuel with
  | zero =>
    intro n hn
    interval_cases n
    rfl
  | succ fuel ih =>
    intro n hn
    by_cases h0 : n = 0
    · subst h0; simp [digitsRev]
    · have hlt : n / 10 ≤ fuel := by
        have : n / 10 < n := Nat.div_lt_self (Nat.pos_of_ne_zero h0) (by norm_num)
        omega
      simp only [digitsRev, h0, if_false, List.foldr_cons]
      rw [ih (n / 10) hlt]
      omega

theorem digitsRev_lt (fuel : ℕ) : ∀ n d : ℕ, d ∈ digitsRev fuel n → d < 10 := by
  induction fuel with
  | zero => intro n d hd; simp [digitsRev] at hd
  | succ fuel ih =>
    intro n d hd
    by_cases h0 : n = 0
    · subst h0; simp [digitsRev] at hd
    · simp only [digitsRev, h0, if_false, List.mem_cons] at hd
      rcases hd with h | h
      · omega
      · exact ih (n / 10) d h

theorem charVal_digitChar (d : ℕ) (hd : d < 10) : charVal (Nat.digitChar d) = d := by
  interval_cases d <;> rfl

theorem isDigit_digitChar (d : ℕ) (hd : d < 10) : (Nat.digitChar d).isDigit = true := by
  interval_cases d <;> decide

theorem natVal_reverse_map (L : List ℕ) (hL : ∀ d ∈ L, d < 10) :
    natVal ((L.map Nat.digitChar).reverse) = L.foldr (fun d a => 10 * a + d) 0 := by
  unfold natVal
  rw [List.foldl_reverse, List.foldr_map]
  induction L with
  | nil => rfl
  | cons d t ih =>
    have hd : d < 10 := hL d (List.mem_cons_self d t)
    have ht : ∀ x ∈ t, x < 10 := fun x hx => hL x (List.mem_cons_of_mem d hx)
    simp only [List.foldr_cons, ih ht, charVal_digitChar d hd]

theorem natVal_natToChars (n : ℕ) : natVal (natToChars n) = n := by
  by_cases h0 : n = 0
  · subst h0; decide
  · unfold natToChars
    rw [if_neg h0, natVal_reverse_map _ (digitsRev_lt n n), digitsRev_foldr n n le_rfl]

theorem natToChars_digit (n : ℕ) : ∀ c ∈ natToChars n, c.isDigit = true := by
  intro c hc
  unfold natToChars at hc
  by_cases h0 : n = 0
  · rw [if_pos h0] at hc
    simp at hc
    subst hc
    decide
  · rw [if_neg h0] at hc
    rw [List.mem_reverse] at hc
    rcases List.mem_map.mp hc with ⟨d, hd, rfl⟩
    exact isDigit_digitChar d (digitsRev_lt n n d hd)

theorem natToChars_ne_nil (n : ℕ) : natToChars n ≠ [] := by
  unfold natToChars
  by_cases h0 : n = 0
  · simp [h0]
  · rw [if_neg h0]
    have : digitsRev n n ≠ [] := by
      cases n with
      | zero => exact absurd rfl h0
      | succ m => simp [digitsRev, h0]
    simp [this]

theorem natVal_singleton (c : Char) : natVal [c] = charVal c := by
  simp [natVal]

theorem ratOfParts_nonneg (p : List Char × List Char) : 0 ≤ ratOfParts p := by
  unfold ratOfParts fracVal
  have h1 : (0 : ℚ) ≤ (natVal p.1 : ℚ) := Nat.cast_nonneg _
  have h2 : (0 : ℚ) ≤ (natVal p.2 : ℚ) / (10 : ℚ) ^ p.2.length :=
    div_nonneg (Nat.cast_nonneg _) (pow_nonneg (by norm_num) _)
  linarith

theorem progressFrom_nonneg (cs : List Char) : 0 ≤ progressFrom cs := by
  unfold progressFrom reSearchNum
  cases h : scanParts cs with
  | none => simp
  | some p => simpa using ratOfParts_nonneg p

theorem reSearchNum_eq_specExtract (cs : List Char) : reSearchNum cs = specExtract cs := by
  induction cs with
  | nil => rfl
  | cons c t ih =>
    by_cases h : c.isDigit
    · have hdrop : (c :: t).dropWhile (fun x => !x.isDigit) = c :: t := by
        simp [List.dropWhile, h]
      simp only [reSearchNum, scanParts, specExtract, matchPartsAt, h, if_true, hdrop]
      by_cases hd : (c :: t).takeWhile (fun x => x.isDigit) = []
      · simp [hd]
      · by_cases hdot : ((c :: t).dropWhile (fun x => x.isDigit)).head? = some '.'
        · by_cases hf :
              ((c :: t).dropWhile (fun x => x.isDigit)).tail.takeWhile (fun x => x.isDigit) = []
          · simp [hd, hdot, hf, ratOfParts, fracVal, natVal]
          · simp [hd, hdot, hf, ratOfParts, fracVal]
        · simp [hd, hdot, ratOfParts, fracVal, natVal]
    · have h1 : scanParts (c :: t) = scanParts t := by simp [scanParts, h]
      have h2 : specExtract (c :: t) = specExtract t := by
        simp [specExtract, List.dropWhile, h]
      calc reSearchNum (c :: t) = reSearchNum t := by simp [reSearchNum, h1]
        _ = specExtract t := ih
        _ = specExtract (c :: t) := h2.symm

theorem progressFrom_simulatedNarrative (image_uri : List Char) (k : ℕ)
    (hd : ∀ c ∈ image_uri, c.isDigit = false) :
    progressFrom (simulatedNarrative image_uri k) = (k : ℚ) / 10 := by
  have hp1 : ∀ c ∈ ("Simulated analysis for image ").data, c.isDigit = false := by decide
  have hp2 : ∀ c ∈ (". The site appears to be at approximately ").data, c.isDigit = false := by
    decide
  have hpre : ∀ c ∈ (("Simulated analysis for image ").data ++ (image_uri ++
      (". The site appears to be at approximately ").data)), c.isDigit = false := by
    intro c hc
    rcases List.mem_append.mp hc with h1 | h2
    · exact hp1 c h1
    · rcases List.mem_append.mp h2 with h3 | h4
      · exact hd c h3
      · exact hp2 c h4
  have hform : simulatedNarrative image_uri k =
      (("Simulated analysis for image ").data ++ (image_uri ++
        (". The site appears to be at approximately ").data)) ++
      (natToChars (k / 10) ++ '.' :: ([Nat.digitChar (k % 10)] ++
        ("% progress with visible structural developments.").data)) := by
    simp [simulatedNarrative, fmtTenths, List.append_assoc]
  have hfs : ∀ c ∈ [Nat.digitChar (k % 10)], c.isDigit = true := by
    intro c hc
    simp at hc
    subst hc
    exact isDigit_digitChar _ (Nat.mod_lt k (by norm_num))
  have hsuf : headNotDigit (("% progress with visible structural developments.").data) := by
    unfold headNotDigit
    decide
  have hscan : scanParts (simulatedNarrative image_uri k) =
      some (natToChars (k / 10), [Nat.digitChar (k % 10)]) := by
    rw [hform, scanParts_append_noDigit _ _ hpre]
    exact scanParts_run_frac _ _ _ (natToChars_ne_nil _) (natToChars_digit _)
      (by simp) hfs hsuf
  rw [progressFrom, reSearchNum, hscan]
  have hv : charVal (Nat.digitChar (k % 10)) = k % 10 :=
    charVal_digitChar _ (Nat.mod_lt k (by norm_num))
  simp [ratOfParts, fracVal, natVal_natToChars, natVal_singleton, hv]
  have hdm : (10 * (k / 10) + k % 10 : ℕ) = k := Nat.div_add_mod k 10
  conv_rhs => rw [← hdm]
  push_cast
  ring

theorem foldl_add_sum (xs : List AnalysisEntry) : ∀ a : ℚ,
    xs.foldl (fun acc e => acc + e.progress) a = a + (xs.map (fun e => e.progress)).sum := by
  induction xs with
  | nil => intro a; simp
  | cons x t ih =>
    intro a
    simp only [List.foldl_cons, List.map_cons, List.sum_cons, ih (a + x.progress)]
    ring

example : scanParts ("approximately 73.5% progress").data = some (("73").data, ("5").data) := by
  decide

example : progressFrom ("approximately 73.5% progress").data = 735 / 10 := by
  have h : scanParts ("approximately 73.5% progress").data = some (("73").data, ("5").data) := by
    decide
  have h1 : natVal ("73").data = 73 := by decide
  have h2 : natVal ("5").data = 5 := by decide
  simp [progressFrom, reSearchNum, h, ratOfParts, fracVal, h1, h2]
  norm_num

example : progressFrom ("no numeric info here").data = 0 := by decide

example : scanParts ("-5% progress").data = some (("5").data, []) := by decide

example : scanParts ("2023").data = some (("2023").data, []) := by decide

example : scanParts (simulatedNarrative ("img1.png").data 732) = some (['1'], []) := by decide

example : scanParts (simulatedNarrative ("img.png").data 732) = some (("73").data, ['2']) := by
  decide

example : natToChars 73 = ['7', '3'] := by decide

/-- C1: for every input list of analysis results, the consolidator's
`overall_progress` equals the arithmetic mean of the `progress` values
of the list when the list is non-empty, and equals 0 when the list is
empty (src/agents.py lines 124-131; the embedding uses exact rational
arithmetic in place of floating point). -/
theorem consolidate_overall_progress_mean (image_analyses : List AnalysisEntry) :
    (consolidate_analysis image_analyses).overall_progress =
      if image_analyses = [] then 0
      else (image_analyses.map (fun e => e.progress)).sum / (image_analyses.length : ℚ) := by
  by_cases h : image_analyses = []
  · subst h; rfl
  · have hl : 0 < image_analyses.length := List.length_pos.mpr h
    simp only [consolidate_analysis, if_neg h, gt_iff_lt, hl, if_true]
    rw [foldl_add_sum image_analyses 0, zero_add]

/-- C2: for every narrative string, the extraction returns the number
given by the first (leftmost) run of digits optionally followed by a
decimal fraction (the optional `%` sign consumed by `\s*%?` does not
affect group 1): the regex search agrees with the spec's description
`specExtract` on every input, and the narrative
`"approximately 73.5% progress"` yields progress `73.5 = 735/10`. -/
theorem extraction_leftmost_run :
    (∀ cs : List Char, reSearchNum cs = specExtract cs) ∧
      progressFrom (("approximately 73.5% progress").data) = 735 / 10 := by
  constructor
  · exact reSearchNum_eq_specExtract
  · have hs : scanParts (("approximately 73.5% progress").data) =
        some ((("73").data), (("5").data)) := by decide
    have h1 : natVal (("73").data) = 73 := by decide
    have h2 : natVal (("5").data) = 5 := by decide
    simp [progressFrom, reSearchNum, hs, ratOfParts, fracVal, h1, h2]
    norm_num

/-- C3 counterexample: with a failing model call for the image URI
`"img1.png"` and the simulated percentage 73.2 (in [50, 100]), the
produced progress value is 1.0 — the leftmost digit run of the
narrative is the `1` inside the URI, not the embedded percentage — so
the claim's `progress_percent ∈ [50, 100]` fails (and no
`is_simulated` field exists on the produced entry at all). -/
theorem simulated_progress_escapes_range :
    progressFrom (simulatedNarrative (("img1.png").data) 732) = 1 ∧
      ¬ (50 ≤ progressFrom (simulatedNarrative (("img1.png").data) 732)) := by
  have hs : scanParts (simulatedNarrative (("img1.png").data) 732) = some (['1'], []) := by
    decide
  have h1 : natVal ['1'] = 1 := by decide
  have hz : natVal ([] : List Char) = 0 := rfl
  have hp : progressFrom (simulatedNarrative (("img1.png").data) 732) = 1 := by
    simp [progressFrom, reSearchNum, hs, ratOfParts, fracVal, h1, hz]
  refine ⟨hp, ?_⟩
  rw [hp]
  norm_num

/-- C3 (amended): whenever the external model call fails, the analyzer
substitutes the simulated narrative embedding a one-decimal percentage
in [50, 100]; the produced entry has no `is_simulated` flag (the source
dict has only `analysis` and `progress` keys), and its progress value
equals the embedded percentage — and hence lies in [50, 100] — provided
the image URI contains no digit characters (otherwise the leftmost
digit run of the URI is extracted instead). -/
theorem analyze_image_failure_simulated (callModel : List Char → Except (List Char) (List Char))
    (sim : List Char → ℕ) (image_uri e : List Char) (k : ℕ)
    (hf : callModel image_uri = Except.error e) (hs : sim image_uri = k)
    (hk1 : 500 ≤ k) (hk2 : k ≤ 1000) (hd : ∀ c ∈ image_uri, c.isDigit = false) :
    analyze_image callModel sim [image_uri] =
      [{ analysis := simulatedNarrative image_uri k, progress := (k : ℚ) / 10 }] ∧
      50 ≤ (k : ℚ) / 10 ∧ (k : ℚ) / 10 ≤ 100 := by
  refine ⟨?_, ?_, ?_⟩
  · simp only [analyze_image, List.map_cons, List.map_nil, hf, hs]
    rw [progressFrom_simulatedNarrative image_uri k hd]
  · have : (500 : ℚ) ≤ (k : ℚ) := by exact_mod_cast hk1
    linarith
  · have : (k : ℚ) ≤ 1000 := by exact_mod_cast hk2
    linarith

/-- C3 witness: concrete instance — URI `"img.png"` (digit-free),
drawn percentage 73.2 (k = 732 tenths), an always-failing model call. -/
theorem analyze_image_failure_simulated_witness :
    (500 ≤ 732 ∧ 732 ≤ 1000 ∧ ∀ c ∈ (("img.png").data), c.isDigit = false) ∧
      (analyze_image (fun _ => Except.error (("quota exceeded").data)) (fun _ => 732)
          [("img.png").data] =
        [{ analysis := simulatedNarrative (("img.png").data) 732,
           progress := ((732 : ℕ) : ℚ) / 10 }] ∧
        50 ≤ ((732 : ℕ) : ℚ) / 10 ∧ ((732 : ℕ) : ℚ) / 10 ≤ 100) :=
  ⟨⟨by decide, by decide, by decide⟩,
    analyze_image_failure_simulated (fun _ => Except.error (("quota exceeded").data))
      (fun _ => 732) (("img.png").data) (("quota exceeded").data) 732 rfl rfl
      (by decide) (by decide) (by decide)⟩

/-- C4 counterexample: a model narrative `"2023"` produces an analysis
entry whose progress value is 2023, outside [0, 100]: the extraction
does not clamp, so `progress_percent ∈ [0, 100]` fails for this
possible narrative text. -/
theorem analyzer_progress_exceeds_100 :
    (analyze_image (fun _ => Except.ok (("2023").data)) (fun _ => 500)
        [("u").data]).map (fun r => r.progress) = [(2023 : ℚ)] ∧
      ¬ ((2023 : ℚ) ≤ 100) := by
  have hs : scanParts (("2023").data) = some ((("2023").data), []) := by decide
  have hn : natVal (("2023").data) = 2023 := by decide
  have hz : natVal ([] : List Char) = 0 := rfl
  have hp : progressFrom (("2023").data) = 2023 := by
    simp [progressFrom, reSearchNum, hs, ratOfParts, fracVal, hn, hz]
  constructor
  · simp [analyze_image, hp]
  · norm_num

/-- C4 (amended): every analysis entry produced by the analyzer has a
non-negative progress value — it defaults to 0 when unparseable — but
the value is not guaranteed to be at most 100: a narrative whose first
digit run exceeds 100 yields a value above 100. -/
theorem analyzer_progress_nonneg (callModel : List Char → Except (List Char) (List Char))
    (sim : List Char → ℕ) (image_metadata_list : List (List Char)) (r : AnalysisEntry)
    (hr : r ∈ analyze_image callModel sim image_metadata_list) : 0 ≤ r.progress := by
  rcases List.mem_map.mp hr with ⟨image_uri, _, rfl⟩
  exact progressFrom_nonneg _

/-- C4 witness: the entry produced for narrative `"site ok"` belongs to
a concrete analyzer run and has non-negative progress. -/
theorem analyzer_progress_nonneg_witness :
    ({ analysis := ("site ok").data, progress := progressFrom (("site ok").data) } :
        AnalysisEntry) ∈
      analyze_image (fun _ => Except.ok (("site ok").data)) (fun _ => 500) [("u").data] ∧
      0 ≤ ({ analysis := ("site ok").data,
             progress := progressFrom (("site ok").data) } : AnalysisEntry).progress :=
  ⟨by simp [analyze_image],
    analyzer_progress_nonneg (fun _ => Except.ok (("site ok").data)) (fun _ => 500)
      [("u").data] _ (by simp [analyze_image])⟩

/-- C5: the analyzer never propagates a failure of the external model
call: for every model-call function it returns exactly one entry per
input image (it is a total function of the call's outcome), and under a
model call that fails on every image it still returns one simulated
entry per image instead of aborting. -/
theorem analyze_image_never_propagates
    (callModel : List Char → Except (List Char) (List Char))
    (err : List Char → List Char) (sim : List Char → ℕ)
    (image_metadata_list : List (List Char)) :
    (analyze_image callModel sim image_metadata_list).length = image_metadata_list.length ∧
      analyze_image (fun u => Except.error (err u)) sim image_metadata_list =
        image_metadata_list.map (fun u =>
          { analysis := simulatedNarrative u (sim u),
            progress := progressFrom (simulatedNarrative u (sim u)) }) :=
  ⟨by simp [analyze_image], rfl⟩

/-- C6: a narrative containing no digit run yields exactly progress 0;
the extraction is total, so this is not an error path. -/
theorem unparseable_narrative_zero (cs : List Char)
    (h : ∀ c ∈ cs, c.isDigit = false) : progressFrom cs = 0 := by
  rw [progressFrom, reSearchNum, scanParts_eq_none cs h]
  rfl

/-- C6 witness: the narrative `"no numeric info here"` has no digit and
yields progress 0. -/
theorem unparseable_narrative_zero_witness :
    (∀ c ∈ (("no numeric info here").data), c.isDigit = false) ∧
      progressFrom (("no numeric info here").data) = 0 :=
  ⟨by decide, unparseable_narrative_zero (("no numeric info here").data) (by decide)⟩

/-- C7: the consolidated timeline has the same length as the input and
lists the entries in exactly the input order — it is the input sequence
itself, not re-sorted by date (src/agents.py lines 123-129). -/
theorem timeline_preserves_input_order (image_analyses : List AnalysisEntry) :
    (consolidate_analysis image_analyses).timeline = image_analyses ∧
      (consolidate_analysis image_analyses).timeline.length = image_analyses.length := by
  have h : (consolidate_analysis image_analyses).timeline = image_analyses := by
    simp [consolidate_analysis]
  exact ⟨h, by rw [h]⟩

/-- C8: the consolidator's `estimated_completion` is the hard-coded
constant `"2024-06-01"` (src/agents.py line 134) and does not depend on
the input analysis results in any way. -/
theorem estimated_completion_constant :
    (∀ image_analyses : List AnalysisEntry,
        (consolidate_analysis image_analyses).estimated_completion = "2024-06-01") ∧
      ∀ xs ys : List AnalysisEntry,
        (consolidate_analysis xs).estimated_completion =
          (consolidate_analysis ys).estimated_completion :=
  ⟨fun _ => rfl, fun _ _ => rfl⟩

/-- C9: the consolidator is deterministic — it draws no randomness and
reads no state, so two calls on the same sequence of analysis results
yield identical timeline, overall_progress and estimated_completion
values. -/
theorem consolidate_deterministic (xs ys : List AnalysisEntry) (h : xs = ys) :
    (consolidate_analysis xs).timeline = (consolidate_analysis ys).timeline ∧
      (consolidate_analysis xs).overall_progress = (consolidate_analysis ys).overall_progress ∧
      (consolidate_analysis xs).estimated_completion =
        (consolidate_analysis ys).estimated_completion := by
  subst h
  exact ⟨rfl, rfl, rfl⟩

/-- C9 witness: two calls on a concrete one-entry input agree. -/
theorem consolidate_deterministic_witness :
    ([({ analysis := ("a").data, progress := 50 } : AnalysisEntry)] =
        [({ analysis := ("a").data, progress := 50 } : AnalysisEntry)]) ∧
      ((consolidate_analysis [({ analysis := ("a").data, progress := 50 } : AnalysisEntry)]).timeline =
          (consolidate_analysis [({ analysis := ("a").data, progress := 50 } : AnalysisEntry)]).timeline ∧
        (consolidate_analysis [({ analysis := ("a").data, progress := 50 } : AnalysisEntry)]).overall_progress =
          (consolidate_analysis [({ analysis := ("a").data, progress := 50 } : AnalysisEntry)]).overall_progress ∧
        (consolidate_analysis [({ analysis := ("a").data, progress := 50 } : AnalysisEntry)]).estimated_completion =
          (consolidate_analysis [({ analysis := ("a").data, progress := 50 } : AnalysisEntry)]).estimated_completion) :=
  ⟨rfl, consolidate_deterministic _ _ rfl⟩

/-- C10: the digit-run extraction can never capture a minus sign, so
the extracted progress value is non-negative for every narrative; in
particular `"-5% progress"` yields 5, not −5. -/
theorem extracted_progress_never_negative :
    (∀ cs : List Char, 0 ≤ progressFrom cs) ∧
      progressFrom (("-5% progress").data) = 5 := by
  refine ⟨progressFrom_nonneg, ?_⟩
  have hs : scanParts (("-5% progress").data) = some (['5'], []) := by decide
  have h5 : natVal ['5'] = 5 := by decide
  have hz : natVal ([] : List Char) = 0 := rfl
  simp [progressFrom, reSearchNum, hs, ratOfParts, fracVal, h5, hz]

end ConstructionProgress
